import Mathlib

/-!
Verification of the gct audio streaming engine core.

Shallow embedding of the playback pipeline of the repository:
the configuration constants, the playback tick and loading loop
of src/audio/mod.rs, the ring-buffer broadcast of src/audio/stream.rs,
and the seek / media-source implementations of src/discord/compat.rs.
Modules of the repository whose sources are not available
(loading::Pool, playback::Scheduler, queuing::Queue, buffering) are
modelled from the specification, and each such definition says so in
its doc comment.

A sample is a 32-bit IEEE-754 float; we represent it by its bit
pattern, a natural number below 2 to the 32.  The float 0.0 has bit
pattern 0, and to_le_bytes on a float is the little-endian byte
serialization of the bit pattern, so silence and serialization are
captured exactly.
-/

namespace Gct

/-- One channel-sample, represented by its 32-bit IEEE-754 bit pattern. -/
abbrev Sample := Nat

/-- Source: src/audio/mod.rs config. -/
def SAMPLE_RATE : Nat := 44100

/-- Source: src/audio/mod.rs config. -/
def CHANNEL_COUNT : Nat := 2

/-- Source: src/audio/mod.rs config. -/
def SAMPLE_IN_BYTES : Nat := 4

/-- Source: src/audio/mod.rs config. -/
def SAMPLES_PER_SEC : Nat := SAMPLE_RATE * CHANNEL_COUNT

/-- Source: src/audio/mod.rs config, STREAM_CHUNK_DURATION in milliseconds. -/
def STREAM_CHUNK_DURATION_MS : Nat := 100

/-- Source: src/audio/mod.rs config. -/
def STREAM_CHUNK_SIZE : Nat := SAMPLES_PER_SEC * STREAM_CHUNK_DURATION_MS / 1000

/-- Source: src/audio/mod.rs, wait_for_next.  The code computes
elapsed_millis = elapsed_micros / 1000 and warns when
elapsed_millis > SAMPLES_PER_SEC / 10000 (integer division). -/
def overrunWarns (elapsedMicros : Nat) : Bool :=
  elapsedMicros / 1000 > SAMPLES_PER_SEC / 10000

/-- Source: src/audio/mod.rs, wait_for_next.  The sleep time is
duration_micros checked_sub elapsed_micros, defaulting to 0. -/
def correctedSleepMicros (elapsedMicros : Nat) : Nat :=
  STREAM_CHUNK_DURATION_MS * 1000 - elapsedMicros

/-- Little-endian serialization of one sample, as f32::to_le_bytes does
on the bit pattern (source: src/audio/mod.rs playback tick). -/
def toLeBytes (s : Sample) : List Nat :=
  [s % 256, s / 256 % 256, s / 65536 % 256, s / 16777216 % 256]

/-- Source: src/audio/mod.rs playback tick, the flat_map of to_le_bytes
over the sample buffer. -/
def samplesAsBytes (samples : List Sample) : List Nat :=
  (samples.map toLeBytes).flatten

/-- A range of sample indices, as Rust Range of usize. -/
structure NatRange where
  start : Nat
  stop : Nat
deriving Repr, DecidableEq

/-- Number of calls to AudioSystem.next made by one playback tick,
given the advancements returned by Scheduler.advance: the source loops
over advancements.iter().skip(1) and calls next once per element
(source: src/audio/mod.rs, read_samples closure). -/
def nextCallsInTick (advancements : List (Nat × NatRange)) : Nat :=
  (advancements.drop 1).foldl (fun n _ => n + 1) 0

/-- Source: src/audio/stream.rs, SAMPLE_BUFFER_SIZE. -/
def SAMPLE_BUFFER_SIZE : Nat := 4096

/-- Source: src/audio/stream.rs, BUFFER_SIZE. -/
def BUFFER_SIZE : Nat := SAMPLE_BUFFER_SIZE * 4

/-- A ringbuf ring buffer of bytes: a bounded FIFO, oldest byte first.
The invariant data.length ≤ capacity is maintained by pushSlice. -/
structure RingBuffer where
  capacity : Nat
  data : List Nat
deriving Repr, DecidableEq

/-- Semantics of ringbuf Producer::push_slice, the operation the
broadcast loop of src/audio/stream.rs performs on each ring: it appends
as many of the given bytes as fit in the free space and returns how many
were appended.  Bytes that do not fit are discarded; bytes already in
the ring are never removed by the producer. -/
def pushSlice (ring : RingBuffer) (bytes : List Nat) : RingBuffer × Nat :=
  let free := ring.capacity - ring.data.length
  let appended := bytes.take free
  ({ ring with data := ring.data ++ appended }, appended.length)

/-- Source: src/audio/stream.rs, AudioStream::run: one broadcast of a
byte chunk pushes it into every registered producer in turn. -/
def pushToAll (producers : List RingBuffer) (bytes : List Nat) : List RingBuffer :=
  producers.map (fun p => (pushSlice p bytes).1)

/-- Rust std::io::SeekFrom. -/
inductive SeekFrom where
  | start : Nat → SeekFrom
  | current : Int → SeekFrom
  | toEnd : Int → SeekFrom
deriving Repr, DecidableEq

/-- Modelled from the spec: the buffering module (AudioBufferConsumer,
the consumer half handed out by BufferRegistry.get_consumer) is not in
the available sources; per the spec a consumer is the reader side of a
byte ring buffer. -/
structure AudioBufferConsumer where
  ring : RingBuffer
deriving Repr, DecidableEq

/-- Source: src/audio/stream.rs, AudioStreamConsumer: the consumer half
of an AudioStream ring buffer. -/
structure AudioStreamConsumer where
  ring : RingBuffer
deriving Repr, DecidableEq

/-- Source: src/discord/compat.rs, impl Seek for AudioBufferConsumer:
seek is a no-op returning Ok(0).  The result carries the returned
position and the unchanged consumer. -/
def AudioBufferConsumer.seek (c : AudioBufferConsumer) (_pos : SeekFrom) :
    Except String (Nat × AudioBufferConsumer) :=
  Except.ok (0, c)

/-- Source: src/audio/stream.rs, impl Seek for AudioStreamConsumer:
seek panics with the message below; a panic is modelled as an error
result. -/
def AudioStreamConsumer.seek (_c : AudioStreamConsumer) (_pos : SeekFrom) :
    Except String (Nat × AudioStreamConsumer) :=
  Except.error "Attempt to seek AudioStream!"

/-- Source: src/discord/compat.rs, impl MediaSource for
AudioBufferConsumer, fn byte_len: always None. -/
def AudioBufferConsumer.byte_len (_c : AudioBufferConsumer) : Option Nat :=
  none

/-- Source: src/discord/compat.rs, impl MediaSource for
AudioBufferConsumer, fn is_seekable: always false. -/
def AudioBufferConsumer.is_seekable (_c : AudioBufferConsumer) : Bool :=
  false

/-- A loader handle: a shared reference to a Pool entry, carrying the
TrackId (data model of the spec; the loading module is not in the
available sources).  TrackIds are the insertion indices into the Pool,
which makes them unique. -/
structure Loader where
  id : Nat
deriving Repr, DecidableEq

/-- Modelled from the spec: a Pool entry of the loading module (not in
the available sources).  The reader is the remaining finite sample
sequence of the Sample Reader; buffer is the loaded prefix;
expected_length is the allocation hint; exhausted records
end-of-stream. -/
structure PoolEntry where
  reader : List Sample
  buffer : List Sample
  expected_length : Nat
  exhausted : Bool
deriving Repr, DecidableEq

/-- Modelled from the spec: the loading::Pool (not in the available
sources); it owns the per-track entries, indexed by TrackId. -/
structure Pool where
  entries : List PoolEntry
deriving Repr, DecidableEq

/-- Modelled from the spec: Pool.add registers a new track, allocates
its buffer with the capacity hint and returns a handle carrying the new
unique TrackId. -/
def Pool.add (pool : Pool) (reader : List Sample) (expected : Nat) :
    Pool × Loader :=
  ({ entries := pool.entries ++ [⟨reader, [], expected, false⟩] },
   ⟨pool.entries.length⟩)

/-- Modelled from the spec: Pool.read copies from
buffer[start .. start+out.len()] clamped by loaded_length; this
returns the samples actually copied (the caller writes them into its
output at the current offset); an out-of-range start yields the empty
list. -/
def Pool.readList (pool : Pool) (id : Nat) (start maxLen : Nat) : List Sample :=
  match pool.entries.get? id with
  | some e => (e.buffer.drop start).take maxLen
  | none => []

/-- Modelled from the spec: Pool.load reads up to amount additional
samples from the reader into the buffer and returns the new
loaded_length; when the reader ends it marks the entry exhausted. -/
def Pool.load (pool : Pool) (id : Nat) (amount : Nat) : Pool × Nat :=
  match pool.entries.get? id with
  | some e =>
      let taken := e.reader.take amount
      let e' : PoolEntry :=
        { reader := e.reader.drop amount
          buffer := e.buffer ++ taken
          expected_length := e.expected_length
          exhausted := e.exhausted || decide (taken.length < amount) }
      ({ entries := pool.entries.set id e' }, e'.buffer.length)
  | none => (pool, 0)

/-- Source: src/audio/mod.rs, Track::new(loader): a track holds only
the loader handle of its Pool entry. -/
structure Track where
  loader : Loader
deriving Repr, DecidableEq

/-- Source: src/audio/mod.rs, queuing::QueuePosition. -/
inductive QueuePosition where
  | Add : QueuePosition
  | Next : QueuePosition
deriving Repr, DecidableEq

/-- Modelled from the spec: the queuing::Queue (not in the available
sources): an ordered list of tracks with a now-playing head index. -/
structure Queue where
  tracks : List Track
  headIndex : Nat
deriving Repr, DecidableEq

/-- Modelled from the spec: add_track inserts at Add (end) or Next
(immediately after head). -/
def Queue.add_track (q : Queue) (t : Track) (pos : QueuePosition) : Queue :=
  match pos with
  | .Add => { q with tracks := q.tracks ++ [t] }
  | .Next => { q with tracks :=
      (q.tracks.take (q.headIndex + 1)) ++ [t] ++ (q.tracks.drop (q.headIndex + 1)) }

/-- Modelled from the spec: Queue.next increments the head by 1. -/
def Queue.next (q : Queue) : Queue :=
  { q with headIndex := q.headIndex + 1 }

/-- Modelled from the spec: peek_ahead returns up to k tracks starting
at the head. -/
def Queue.peek_ahead (q : Queue) (k : Nat) : List Track :=
  (q.tracks.drop q.headIndex).take k

/-- Modelled from the spec: the playback::Scheduler state (not in the
available sources): the look-ahead window of loader handles, the cursor
into the first one, and the per-track bookkeeping maps. -/
structure Scheduler where
  loaders : List Loader
  cursor : Nat
  known_lengths : List (Nat × Nat)
  exhausted_flags : List (Nat × Bool)
deriving Repr, DecidableEq

/-- Modelled from the spec: set_loaders replaces the look-ahead window;
if the first handle has the same TrackId as before the cursor is
preserved, otherwise it resets to 0. -/
def Scheduler.set_loaders (s : Scheduler) (handles : List Loader) : Scheduler :=
  let sameHead :=
    match handles.head?, s.loaders.head? with
    | some a, some b => decide (a.id = b.id)
    | _, _ => false
  { s with loaders := handles, cursor := if sameHead then s.cursor else 0 }

/-- Modelled from the spec: notify_load updates known_lengths[id]; if
the length did not grow the track is flagged exhausted. -/
def Scheduler.notify_load (s : Scheduler) (id : Nat) (newLength : Nat) : Scheduler :=
  let old := (s.known_lengths.lookup id).getD 0
  { s with
    known_lengths := (id, newLength) :: s.known_lengths.filter (fun p => p.1 ≠ id)
    exhausted_flags :=
      if newLength ≤ old ∧ old ≠ 0 then
        (id, true) :: s.exhausted_flags.filter (fun p => p.1 ≠ id)
      else s.exhausted_flags }

/-- An input to AudioSystem.add: something convertible into a Sample
Reader plus a duration hint in seconds (data model of the spec).  The
f32 duration is modelled as a rational number. -/
structure Input where
  duration : ℚ
  samples : List Sample

/-- Source: src/audio/mod.rs, Input::into_sample_reader, modelled as
the finite sample sequence the reader will produce. -/
def Input.into_sample_reader (i : Input) : List Sample :=
  i.samples

/-- The AudioSystem state: the queue, scheduler and pool shared by the
driver threads (source: src/audio/mod.rs, struct AudioSystem; the
registry is carried separately where needed). -/
structure AudioSystem where
  queue : Queue
  scheduler : Scheduler
  pool : Pool

/-- Source: src/audio/mod.rs, AudioSystem::notify_queue_update: set the
scheduler loaders to the loader handles of peek_ahead(3). -/
def AudioSystem.notify_queue_update (s : AudioSystem) : AudioSystem :=
  { s with scheduler :=
      s.scheduler.set_loaders ((s.queue.peek_ahead 3).map (fun t => t.loader)) }

/-- Source: src/audio/mod.rs, AudioSystem::add: register the input's
sample reader in the pool with expected length
round(SAMPLES_PER_SEC * duration), append the track at QueuePosition
Add, then notify_queue_update. -/
def AudioSystem.add (s : AudioSystem) (input : Input) : AudioSystem :=
  let duration := input.duration
  let reader := input.into_sample_reader
  let length : ℚ := (SAMPLES_PER_SEC : ℚ) * duration
  let (pool', loader) := s.pool.add reader (round length).toNat
  let track := Track.mk loader
  let s' : AudioSystem :=
    { s with pool := pool', queue := s.queue.add_track track .Add }
  s'.notify_queue_update

/-- Source: src/audio/mod.rs, AudioSystem::next: advance the queue then
notify_queue_update. -/
def AudioSystem.next (s : AudioSystem) : AudioSystem :=
  { s with queue := s.queue.next }.notify_queue_update

/-- Writing the samples a Pool.read call produced into the caller's
buffer at the given offset, as the Rust call
pool.read(id, start, buf[offset..]) does: only the positions
offset .. offset + written are touched. -/
def writeAt (buf : List Sample) (offset : Nat) (xs : List Sample) : List Sample :=
  buf.take offset ++ xs ++ buf.drop (offset + xs.length)

/-- The loop body of the read_samples closure, generalized over the
accumulated offset state (the source starts the accumulator at 0). -/
def fillFrom (pool : Pool) (advancements : List (Nat × NatRange))
    (buf : List Sample) (offset : Nat) : List Sample × Nat :=
  advancements.foldl
    (fun acc seg =>
      let xs := pool.readList seg.1 seg.2.start (acc.1.length - acc.2)
      (writeAt acc.1 acc.2 xs, acc.2 + xs.length))
    (buf, offset)

/-- Source: src/audio/mod.rs, the read_samples closure of
playback_thread::start: for each advancement segment, read from the
pool at the segment's start into the buffer at the accumulated offset,
and accumulate the offset by the amount actually read.  Returns the
filled buffer and the final accumulated offset. -/
def read_samples (pool : Pool) (advancements : List (Nat × NatRange))
    (buf : List Sample) : List Sample × Nat :=
  fillFrom pool advancements buf 0

/-- Source: src/audio/mod.rs, the tick closure of
playback_thread::start: allocate STREAM_CHUNK_SIZE zero samples, fill
them via read_samples, serialize to little-endian bytes.  The
advancements are the segments Scheduler.advance returned for this
tick. -/
def tickSamples (pool : Pool) (advancements : List (Nat × NatRange)) :
    List Sample × Nat :=
  read_samples pool advancements (List.replicate STREAM_CHUNK_SIZE 0)

/-- Source: src/audio/mod.rs, the tick closure: the byte chunk handed
to registry.write_byte_samples. -/
def tickBytes (pool : Pool) (advancements : List (Nat × NatRange)) : List Nat :=
  samplesAsBytes (tickSamples pool advancements).1

/-- Source: src/audio/mod.rs, the tick closure together with the
registry write: one playback tick's effect on the registry rings. -/
def playbackTick (pool : Pool) (advancements : List (Nat × NatRange))
    (registry : List RingBuffer) : List RingBuffer :=
  pushToAll registry (tickBytes pool advancements)

/-- An observable event of the loading thread. -/
inductive LoadEvent where
  | load : Nat → Nat → Nat → LoadEvent
  | notify : Nat → Nat → LoadEvent
  | sleepMs : Nat → LoadEvent
deriving Repr, DecidableEq

/-- Source: src/audio/mod.rs, loading_thread::start: for each
(id, amount) request in order, call Pool.load and then
Scheduler.notify_load with exactly the returned new length.  The trace
records these calls in program order. -/
def loaderRequestEvents (pool : Pool) : List (Nat × Nat) → List LoadEvent
  | [] => []
  | (id, amount) :: rest =>
      LoadEvent.load id amount (pool.load id amount).2 ::
        LoadEvent.notify id (pool.load id amount).2 ::
          loaderRequestEvents (pool.load id amount).1 rest

/-- Source: src/audio/mod.rs, loading_thread::start: one iteration of
the loading loop processes all requests and then sleeps 500 ms. -/
def loadingIteration (pool : Pool) (requests : List (Nat × Nat)) : List LoadEvent :=
  loaderRequestEvents pool requests ++ [LoadEvent.sleepMs 500]

/-! ## Helper lemmas -/

theorem nextCallsInTick_eq_length_drop (advs : List (Nat × NatRange)) :
    nextCallsInTick advs = (advs.drop 1).length := by
  unfold nextCallsInTick
  generalize advs.drop 1 = l
  have h : ∀ (m : Nat) (l : List (Nat × NatRange)),
      l.foldl (fun n _ => n + 1) m = m + l.length := by
    intro m l
    induction l generalizing m with
    | nil => simp
    | cons b t iht => simp [List.foldl, iht]; omega
  rw [h]
  omega

theorem readList_length_le (pool : Pool) (id start maxLen : Nat) :
    (pool.readList id start maxLen).length ≤ maxLen := by
  unfold Pool.readList
  cases pool.entries.get? id with
  | none => simp
  | some e => simp [List.length_take]

theorem writeAt_length (buf : List Sample) (off : Nat) (xs : List Sample)
    (h : off + xs.length ≤ buf.length) :
    (writeAt buf off xs).length = buf.length := by
  unfold writeAt
  simp only [List.length_append, List.length_take, List.length_drop]
  omega

theorem writeAt_drop (buf : List Sample) (off : Nat) (xs : List Sample)
    (h : off ≤ buf.length) :
    (writeAt buf off xs).drop (off + xs.length) = buf.drop (off + xs.length) := by
  unfold writeAt
  refine List.drop_left' ?_
  simp only [List.length_append, List.length_take]
  omega

theorem fillFrom_spec (pool : Pool) (advs : List (Nat × NatRange)) :
    ∀ (buf : List Sample) (off : Nat), off ≤ buf.length →
    buf.drop off = List.replicate (buf.length - off) 0 →
    (fillFrom pool advs buf off).1.length = buf.length ∧
    off ≤ (fillFrom pool advs buf off).2 ∧
    (fillFrom pool advs buf off).2 ≤ buf.length ∧
    (fillFrom pool advs buf off).1.drop (fillFrom pool advs buf off).2 =
      List.replicate (buf.length - (fillFrom pool advs buf off).2) 0 := by
  induction advs with
  | nil =>
    intro buf off h1 h2
    exact ⟨rfl, le_refl off, h1, h2⟩
  | cons seg advs ih =>
    intro buf off h1 h2
    have hxs : (pool.readList seg.1 seg.2.start (buf.length - off)).length ≤
        buf.length - off := readList_length_le pool seg.1 seg.2.start (buf.length - off)
    set xs := pool.readList seg.1 seg.2.start (buf.length - off) with hxsdef
    have hfits : off + xs.length ≤ buf.length := by omega
    have hstep : fillFrom pool (seg :: advs) buf off =
        fillFrom pool advs (writeAt buf off xs) (off + xs.length) := rfl
    have hlen : (writeAt buf off xs).length = buf.length :=
      writeAt_length buf off xs hfits
    have hdrop : (writeAt buf off xs).drop (off + xs.length) =
        List.replicate ((writeAt buf off xs).length - (off + xs.length)) 0 := by
      rw [hlen, writeAt_drop buf off xs h1, ← List.drop_drop, h2,
        List.drop_replicate]
      congr 1
      omega
    obtain ⟨a, b, c, d⟩ := ih (writeAt buf off xs) (off + xs.length)
      (by rw [hlen]; exact hfits) hdrop
    rw [hstep]
    rw [hlen] at a c d
    exact ⟨a, by omega, c, d⟩

theorem tickSamples_fst_length (pool : Pool) (advs : List (Nat × NatRange)) :
    (tickSamples pool advs).1.length = STREAM_CHUNK_SIZE := by
  have h := (fillFrom_spec pool advs (List.replicate STREAM_CHUNK_SIZE 0) 0
    (by simp) (by simp)).1
  rw [List.length_replicate] at h
  exact h

theorem samplesAsBytes_length (l : List Sample) :
    (samplesAsBytes l).length = 4 * l.length := by
  induction l with
  | nil => rfl
  | cons a t ih =>
    simp only [samplesAsBytes, List.map_cons, List.flatten_cons,
      List.length_append, List.length_cons] at *
    rw [ih]
    simp [toLeBytes]
    ring

theorem samplesAsBytes_extract (l : List Sample) :
    ∀ i, i < l.length →
    ((samplesAsBytes l).drop (4 * i)).take 4 = toLeBytes (l.getD i 0) := by
  induction l with
  | nil => intro i h; simp at h
  | cons a t ih =>
    intro i h
    match i with
    | 0 =>
      simp only [samplesAsBytes, List.map_cons, List.flatten_cons,
        Nat.mul_zero, List.drop_zero]
      rw [List.take_left' (by simp [toLeBytes] : (toLeBytes a).length = 4)]
      rfl
    | Nat.succ m =>
      simp only [samplesAsBytes, List.map_cons, List.flatten_cons]
      have harith : 4 * (m + 1) = 4 + 4 * m := by ring
      rw [harith, ← List.drop_drop,
        List.drop_left' (by simp [toLeBytes] : (toLeBytes a).length = 4)]
      have hm : m < t.length := by
        simp only [List.length_cons] at h
        omega
      exact ih m hm

/-! ## Claim theorems -/

/-- C10: the consumer handle, probed as a media source, always reports
an unknown byte length (byte_len is None) and reports itself
non-seekable (is_seekable is false). -/
theorem c10_media_source_reports_unknown_unseekable (c : AudioBufferConsumer) :
    c.byte_len = none ∧ c.is_seekable = false :=
  ⟨rfl, rfl⟩

/-- C7 counterexample: the claim says every consumer handle of the
output stream treats seek as a no-op returning 0 and never errors, but
seeking the AudioStreamConsumer of src/audio/stream.rs panics
(modelled as an error result). -/
theorem c7_stream_consumer_seek_panics :
    (AudioStreamConsumer.seek ⟨⟨BUFFER_SIZE, []⟩⟩ (SeekFrom.start 0)).isOk = false :=
  rfl

/-- C7 amended: a seek on an AudioBufferConsumer (the AudioSystem
output consumer of src/discord/compat.rs) is a no-op returning
position 0 with the consumer unchanged and never errors, while a seek
on an AudioStreamConsumer (src/audio/stream.rs) panics. -/
theorem c7_buffer_consumer_seek_noop (c : AudioBufferConsumer) (pos : SeekFrom)
    (c' : AudioStreamConsumer) (pos' : SeekFrom) :
    c.seek pos = Except.ok (0, c) ∧ (c'.seek pos').isOk = false :=
  ⟨rfl, rfl⟩

/-- C5 counterexample: the claim says a warning is logged iff the tick
elapsed time exceeds 10 milliseconds (10000 microseconds); at 9000
microseconds the code warns although 9 ms does not exceed 10 ms. -/
theorem c5_warns_below_ten_ms :
    overrunWarns 9000 = true ∧ ¬ (9000 > 10000) := by
  constructor
  · rfl
  · omega

/-- C5 amended: the code warns iff elapsed_micros / 1000 exceeds
SAMPLES_PER_SEC / 10000 = 8 whole milliseconds, i.e. iff the elapsed
time is at least 9000 microseconds — the threshold is 8 ms (the
truncation of 8.82 ms), not 10 ms. -/
theorem c5_warn_threshold_is_8ms (elapsedMicros : Nat) :
    overrunWarns elapsedMicros = true ↔ 9000 ≤ elapsedMicros := by
  unfold overrunWarns SAMPLES_PER_SEC SAMPLE_RATE CHANNEL_COUNT
  simp only [gt_iff_lt, decide_eq_true_eq]
  omega

/-- C2: in every tick, AudioSystem.next is called exactly once per
advancement segment after the first: k times for k+1 segments, and
never when the scheduler returned zero or one segment. -/
theorem c2_next_once_per_rollover (advs : List (Nat × NatRange)) (k : Nat) :
    (advs.length = k + 1 → nextCallsInTick advs = k) ∧
    (advs.length ≤ 1 → nextCallsInTick advs = 0) := by
  rw [nextCallsInTick_eq_length_drop, List.length_drop]
  omega

theorem c2_next_once_per_rollover_witness :
    nextCallsInTick [(0, ⟨0, 8820⟩), (1, ⟨0, 100⟩), (2, ⟨0, 50⟩)] = 2 :=
  (c2_next_once_per_rollover [(0, ⟨0, 8820⟩), (1, ⟨0, 100⟩), (2, ⟨0, 50⟩)] 2).1
    (by decide)

/-- C3 counterexample: the claim says a write to a full ring drops the
oldest bytes so the newly written bytes are retained; in the code,
ringbuf push_slice on a full 4-byte ring holding 1,2,3,4 keeps the
oldest byte 1 and does not retain the newly written byte 9. -/
theorem c3_full_ring_keeps_oldest :
    (pushSlice ⟨4, [1, 2, 3, 4]⟩ [9]).1.data = [1, 2, 3, 4] ∧
    (pushSlice ⟨4, [1, 2, 3, 4]⟩ [9]).1.data.head? = some 1 ∧
    9 ∉ (pushSlice ⟨4, [1, 2, 3, 4]⟩ [9]).1.data := by
  refine ⟨rfl, rfl, ?_⟩
  decide

/-- C3 amended: when a consumer's ring buffer is full, a broadcast
write drops the newly written bytes that do not fit (the bytes already
buffered are retained, never overwritten); the write appends exactly
what fits, so the producer never blocks on consumer progress, and each
consumer's ring is updated independently of every other consumer, so a
stalled consumer misses audio while the others are unaffected. -/
theorem c3_overflow_drops_newest (ring : RingBuffer) (bytes : List Nat)
    (producers : List RingBuffer) (i : Nat) (p : RingBuffer)
    (hp : producers.get? i = some p) :
    (ring.data.length = ring.capacity → (pushSlice ring bytes).1 = ring) ∧
    (pushSlice ring bytes).1.data =
      ring.data ++ bytes.take (ring.capacity - ring.data.length) ∧
    (pushToAll producers bytes).get? i = some (pushSlice p bytes).1 := by
  refine ⟨?_, rfl, ?_⟩
  · intro hfull
    unfold pushSlice
    simp [hfull]
  · unfold pushToAll
    rw [List.get?_eq_getElem?] at hp ⊢
    rw [List.getElem?_map, hp]
    rfl

theorem c3_overflow_drops_newest_witness :
    ((RingBuffer.mk 4 [1, 2, 3, 4]).data.length = (RingBuffer.mk 4 [1, 2, 3, 4]).capacity →
      (pushSlice ⟨4, [1, 2, 3, 4]⟩ [9]).1 = ⟨4, [1, 2, 3, 4]⟩) ∧
    (pushSlice ⟨4, [1, 2, 3, 4]⟩ [9]).1.data =
      [1, 2, 3, 4] ++ [9].take (4 - [1, 2, 3, 4].length) ∧
    (pushToAll [⟨4, [1, 2, 3, 4]⟩] [9]).get? 0 = some (pushSlice ⟨4, [1, 2, 3, 4]⟩ [9]).1 :=
  c3_overflow_drops_newest ⟨4, [1, 2, 3, 4]⟩ [9] [⟨4, [1, 2, 3, 4]⟩] 0
    ⟨4, [1, 2, 3, 4]⟩ (by decide)

/-- C6: after every queue mutation through the public API (add and
next), the scheduler's look-ahead window equals the loader handles of
up to 3 tracks starting at the queue head, in queue order. -/
theorem c6_window_synced_after_mutation (s : AudioSystem) (input : Input) :
    (s.add input).scheduler.loaders =
      ((s.add input).queue.peek_ahead 3).map (fun t => t.loader) ∧
    s.next.scheduler.loaders =
      (s.next.queue.peek_ahead 3).map (fun t => t.loader) := by
  constructor <;>
    simp [AudioSystem.add, AudioSystem.next, AudioSystem.notify_queue_update,
      Scheduler.set_loaders, Pool.add]

/-- C8: AudioSystem.add registers the input's sample reader in the
Pool with an expected length of round(88200 × duration) samples (used
only as the entry's allocation hint) and appends the resulting track
at the end of the queue, leaving the head unchanged. -/
theorem c8_add_registers_reader_appends_track (s : AudioSystem) (input : Input) :
    (s.add input).pool.entries = s.pool.entries ++
      [⟨input.into_sample_reader, [], (round ((88200 : ℚ) * input.duration)).toNat, false⟩] ∧
    (s.add input).queue.tracks =
      s.queue.tracks ++ [Track.mk ⟨s.pool.entries.length⟩] ∧
    (s.add input).queue.headIndex = s.queue.headIndex := by
  refine ⟨?_, ?_, ?_⟩ <;>
    simp [AudioSystem.add, AudioSystem.notify_queue_update, Pool.add,
      Queue.add_track, Input.into_sample_reader, SAMPLES_PER_SEC,
      SAMPLE_RATE, CHANNEL_COUNT]

/-- C9: in every loading-thread iteration, each notify_load event is
immediately preceded by the Pool.load call of the same track whose
returned length it reports, and the iteration ends with the 500 ms
sleep; so notify_load is never issued before the corresponding load
completed. -/
theorem c9_load_before_notify (pool : Pool) (requests : List (Nat × Nat))
    (j id v : Nat)
    (h : (loadingIteration pool requests).get? j = some (LoadEvent.notify id v)) :
    (1 ≤ j ∧ ∃ a, (loadingIteration pool requests).get? (j - 1) =
      some (LoadEvent.load id a v)) ∧
    (loadingIteration pool requests).getLast? = some (LoadEvent.sleepMs 500) := by
  constructor
  · have key : ∀ (reqs : List (Nat × Nat)) (p : Pool) (j : Nat),
        (loaderRequestEvents p reqs).get? j = some (LoadEvent.notify id v) →
        1 ≤ j ∧ ∃ a, (loaderRequestEvents p reqs).get? (j - 1) =
          some (LoadEvent.load id a v) := by
      intro reqs
      induction reqs with
      | nil => intro p j hj; simp [loaderRequestEvents] at hj
      | cons r rest ih =>
        intro p j hj
        obtain ⟨rid, ramount⟩ := r
        rw [loaderRequestEvents] at hj
        match j with
        | 0 => simp at hj
        | 1 =>
          simp at hj
          obtain ⟨hid, hv⟩ := hj
          subst hid; subst hv
          exact ⟨le_refl 1, ramount, rfl⟩
        | Nat.succ (Nat.succ m) =>
          have hj' : (loaderRequestEvents (p.load rid ramount).1 rest).get? m =
              some (LoadEvent.notify id v) := hj
          obtain ⟨hm, a, ha⟩ := ih (p.load rid ramount).1 m hj'
          refine ⟨by omega, a, ?_⟩
          have hstep : m + 2 - 1 = (m - 1) + 2 := by omega
          rw [hstep, loaderRequestEvents]
          simpa using ha
    have hlt : j < (loaderRequestEvents pool requests).length := by
      by_contra hge
      push_neg at hge
      rw [loadingIteration, List.get?_eq_getElem?, List.getElem?_append_right hge] at h
      match hd : j - (loaderRequestEvents pool requests).length with
      | 0 => rw [hd] at h; simp at h
      | Nat.succ m => rw [hd] at h; simp at h
    have hin : (loaderRequestEvents pool requests).get? j =
        some (LoadEvent.notify id v) := by
      rw [loadingIteration, List.get?_eq_getElem?, List.getElem?_append_left hlt] at h
      rw [List.get?_eq_getElem?]
      exact h
    obtain ⟨h1, a, ha⟩ := key requests pool j hin
    refine ⟨h1, a, ?_⟩
    have hlt' : j - 1 < (loaderRequestEvents pool requests).length := by omega
    rw [loadingIteration, List.get?_eq_getElem?, List.getElem?_append_left hlt']
    rw [List.get?_eq_getElem?] at ha
    exact ha
  · rw [loadingIteration]
    simp

theorem c9_load_before_notify_witness :
    (1 ≤ 1 ∧ ∃ a, (loadingIteration ⟨[⟨[1, 2, 3, 4, 5], [], 10, false⟩]⟩
        [(0, 3)]).get? (1 - 1) = some (LoadEvent.load 0 a 3)) ∧
    (loadingIteration ⟨[⟨[1, 2, 3, 4, 5], [], 10, false⟩]⟩
        [(0, 3)]).getLast? = some (LoadEvent.sleepMs 500) :=
  c9_load_before_notify ⟨[⟨[1, 2, 3, 4, 5], [], 10, false⟩]⟩ [(0, 3)] 1 0 3
    (by decide)

/-- C1: every playback tick produces exactly STREAM_CHUNK_SIZE = 8820
samples (35280 bytes) and writes them to the registry: the buffer
starts as 8820 zero samples, a prefix is filled by the Pool.read calls
of the advancement segments with the offset accumulating the amounts
actually read, and everything from the final offset on is still zero
(silence), whatever the segments supplied. -/
theorem c1_tick_chunk_size_and_silence (pool : Pool)
    (advancements : List (Nat × NatRange)) (registry : List RingBuffer) :
    STREAM_CHUNK_SIZE = 8820 ∧
    (tickSamples pool advancements).1.length = 8820 ∧
    (tickSamples pool advancements).2 ≤ 8820 ∧
    (tickSamples pool advancements).1.drop (tickSamples pool advancements).2 =
      List.replicate (8820 - (tickSamples pool advancements).2) 0 ∧
    (tickBytes pool advancements).length = 35280 ∧
    playbackTick pool advancements registry =
      pushToAll registry (tickBytes pool advancements) := by
  have hsz : STREAM_CHUNK_SIZE = 8820 := rfl
  have base := fillFrom_spec pool advancements (List.replicate STREAM_CHUNK_SIZE 0) 0
    (by simp) (by simp)
  obtain ⟨a, _, c, d⟩ := base
  rw [List.length_replicate, hsz] at a c d
  have hts : tickSamples pool advancements =
      fillFrom pool advancements (List.replicate STREAM_CHUNK_SIZE 0) 0 := rfl
  refine ⟨hsz, ?_, ?_, ?_, ?_, rfl⟩
  · rw [hts]; exact a
  · rw [hts]; exact c
  · rw [hts]; exact d
  · unfold tickBytes
    rw [samplesAsBytes_length, tickSamples_fst_length, hsz]

/-- C4: the byte chunk a playback tick pushes to consumers is the
little-endian 4-byte serialization of the tick's samples in sample
order, and the 4 bytes at byte offset 4i are exactly the little-endian
encoding of sample i, so a sample read back from the stream at its
index yields the exact same 4 bytes it was serialized from. -/
theorem c4_bytes_are_little_endian_samples (pool : Pool)
    (advancements : List (Nat × NatRange)) (i : Nat)
    (h : i < (tickSamples pool advancements).1.length) :
    tickBytes pool advancements =
      ((tickSamples pool advancements).1.map toLeBytes).flatten ∧
    ((tickBytes pool advancements).drop (4 * i)).take 4 =
      toLeBytes ((tickSamples pool advancements).1.getD i 0) :=
  ⟨rfl, samplesAsBytes_extract (tickSamples pool advancements).1 i h⟩

theorem c4_bytes_are_little_endian_samples_witness :
    tickBytes ⟨[⟨[], [305419896], 100, true⟩]⟩ [(0, ⟨0, 1⟩)] =
      ((tickSamples ⟨[⟨[], [305419896], 100, true⟩]⟩ [(0, ⟨0, 1⟩)]).1.map toLeBytes).flatten ∧
    ((tickBytes ⟨[⟨[], [305419896], 100, true⟩]⟩ [(0, ⟨0, 1⟩)]).drop (4 * 0)).take 4 =
      toLeBytes ((tickSamples ⟨[⟨[], [305419896], 100, true⟩]⟩ [(0, ⟨0, 1⟩)]).1.getD 0 0) :=
  c4_bytes_are_little_endian_samples ⟨[⟨[], [305419896], 100, true⟩]⟩ [(0, ⟨0, 1⟩)] 0
    (by rw [tickSamples_fst_length]; decide)

end Gct
